import Mathlib

/-
Verification of the chunk-caching allocator of the Doris backend
(be/src/runtime/memory/chunk_allocator.h).

Only the header is present in the repository snapshot; the implementation
file (chunk_allocator.cpp) and the ChunkArena implementation are absent.
Facts decided by the header itself (declared signatures, the inline body of
ChunkAllocator::instance) are embedded from the header; the bodies of
allocate, allocate_align and free are modelled from the specification, as
marked on each definition.
-/

namespace DorisChunkAlloc

/-- Error taxonomy of the allocator, from the specification section 7:
InvalidArgument (zero or oversized request, bad release), OutOfMemory
(system allocation failed), ResourceExceeded (tracker denied quota). -/
inductive AllocError
  | invalidArgument
  | outOfMemory
  | resourceExceeded
  deriving DecidableEq

/-- Modelled from the spec: a Chunk is a lease on a contiguous block: a
handle to the raw memory (here an abstract numeric handle), a size, and the
id of the core whose arena it was issued from. Mirrors the fields of
struct Chunk (data, size, core_id) used by chunk_allocator.h; the struct
definition itself (chunk.h) is absent from the snapshot. -/
structure Chunk where
  data : Nat
  size : Nat
  core_id : Nat
  deriving DecidableEq

/-- Helper for nextPow2: starting from candidate p, keep doubling (at most
fuel times) until the candidate reaches s. Structural recursion on fuel so
that the kernel can evaluate it on concrete inputs. -/
def nextPow2Go (s : Nat) : Nat → Nat → Nat
  | 0, p => p
  | fuel + 1, p => if s ≤ p then p else nextPow2Go s fuel (2 * p)

/-- Modelled from the spec: the smallest power of two that is at least s
(the size-class rounding underlying round_up; the implementation in
chunk_allocator.cpp is absent from the snapshot). -/
def nextPow2 (s : Nat) : Nat := nextPow2Go s s 1

/-- Modelled from the spec: the fixed maximum representable chunk size; the
spec gives the class range as covering 4 KiB up to tens of GiB, so the
model fixes the cap at 2 to the 36 (64 GiB). -/
def MAX_CHUNK_SIZE : Nat := 2 ^ 36

/-- Modelled from the spec: round_up(size) returns the smallest power of
two that is at least size, and fails with InvalidArgument if size is zero
or exceeds the fixed maximum representable chunk size. -/
def round_up (s : Nat) : Except AllocError Nat :=
  if s = 0 then .error .invalidArgument
  else if MAX_CHUNK_SIZE < s then .error .invalidArgument
  else .ok (nextPow2 s)

/-- Helper for class_of: floor base-two logarithm by structural recursion
on fuel. -/
def classOfGo : Nat → Nat → Nat
  | 0, _ => 0
  | fuel + 1, n => if n ≤ 1 then 0 else classOfGo fuel (n / 2) + 1

/-- Modelled from the spec: class_of(size_class) maps a size class to the
bucket index used to index the per-class free lists (the floor base-two
logarithm of the size class). -/
def class_of (sizeClass : Nat) : Nat := classOfGo sizeClass sizeClass

/-- Decidable power-of-two test: n is positive and rounding n up to a power
of two leaves it unchanged. -/
def isPow2 (n : Nat) : Bool := decide (0 < n ∧ nextPow2 n = n)

theorem nextPow2Go_pow (s : Nat) :
    ∀ fuel p, (∃ j, p = 2 ^ j) → ∃ k, nextPow2Go s fuel p = 2 ^ k := by
  intro fuel
  induction fuel with
  | zero => intro p hp; simp only [nextPow2Go]; exact hp
  | succ fuel ih =>
    intro p hp
    obtain ⟨j, rfl⟩ := hp
    by_cases h : s ≤ 2 ^ j
    · exact ⟨j, by simp [nextPow2Go, h]⟩
    · have : nextPow2Go s (fuel + 1) (2 ^ j) = nextPow2Go s fuel (2 * 2 ^ j) := by
        simp [nextPow2Go, h]
      rw [this]
      exact ih (2 * 2 ^ j) ⟨j + 1, by ring⟩

theorem nextPow2Go_ge (s : Nat) :
    ∀ fuel p, s ≤ 2 ^ fuel * p → s ≤ nextPow2Go s fuel p := by
  intro fuel
  induction fuel with
  | zero => intro p hp; simp only [nextPow2Go]; omega
  | succ fuel ih =>
    intro p hp
    by_cases h : s ≤ p
    · simp only [nextPow2Go, if_pos h]; exact h
    · have : nextPow2Go s (fuel + 1) p = nextPow2Go s fuel (2 * p) := by
        simp [nextPow2Go, h]
      rw [this]
      apply ih
      calc s ≤ 2 ^ (fuel + 1) * p := hp
        _ = 2 ^ fuel * (2 * p) := by ring

theorem nextPow2Go_min (s : Nat) :
    ∀ fuel a k, s ≤ 2 ^ k → 2 ^ a ≤ 2 ^ k → nextPow2Go s fuel (2 ^ a) ≤ 2 ^ k := by
  intro fuel
  induction fuel with
  | zero => intro a k _ hak; simpa [nextPow2Go] using hak
  | succ fuel ih =>
    intro a k hs hak
    by_cases h : s ≤ 2 ^ a
    · simpa [nextPow2Go, h] using hak
    · have hlt : 2 ^ a < 2 ^ k := by
        have h1 : 2 ^ a < s := Nat.lt_of_not_le h
        omega
      have halt : a < k := by
        by_contra hk
        have : 2 ^ k ≤ 2 ^ a := Nat.pow_le_pow_right (by omega) (by omega)
        omega
      have hstep : nextPow2Go s (fuel + 1) (2 ^ a) = nextPow2Go s fuel (2 ^ (a + 1)) := by
        have : 2 * 2 ^ a = 2 ^ (a + 1) := by ring
        simp [nextPow2Go, h, this]
      rw [hstep]
      exact ih (a + 1) k hs (Nat.pow_le_pow_right (by omega) (by omega))

theorem nextPow2_pow (s : Nat) : ∃ k, nextPow2 s = 2 ^ k :=
  nextPow2Go_pow s s 1 ⟨0, rfl⟩

theorem nextPow2_ge (s : Nat) : s ≤ nextPow2 s := by
  apply nextPow2Go_ge
  have := Nat.lt_two_pow s
  omega

theorem nextPow2_min (s : Nat) : ∀ k, s ≤ 2 ^ k → nextPow2 s ≤ 2 ^ k := by
  intro k hs
  have h := nextPow2Go_min s s 0 k hs (Nat.one_le_two_pow)
  simpa [nextPow2] using h

theorem nextPow2_lt_two_mul (s : Nat) (hs : 0 < s) : nextPow2 s < 2 * s := by
  obtain ⟨m, hm⟩ := nextPow2_pow s
  by_contra hcon
  have h2s : 2 * s ≤ 2 ^ m := by omega
  cases m with
  | zero => simp at h2s; omega
  | succ m0 =>
    have hsm : s ≤ 2 ^ m0 := by
      have : 2 ^ (m0 + 1) = 2 * 2 ^ m0 := by ring
      omega
    have := nextPow2_min s m0 hsm
    have hlt : 2 ^ m0 < 2 ^ (m0 + 1) := by
      have : 2 ^ (m0 + 1) = 2 * 2 ^ m0 := by ring
      have hpos : 0 < 2 ^ m0 := Nat.pos_pow_of_pos m0 (by omega)
      omega
    omega

theorem isPow2_iff (n : Nat) : isPow2 n = true ↔ ∃ k, n = 2 ^ k := by
  constructor
  · intro h
    have h2 : 0 < n ∧ nextPow2 n = n := of_decide_eq_true h
    obtain ⟨k, hk⟩ := nextPow2_pow n
    exact ⟨k, by omega⟩
  · rintro ⟨k, rfl⟩
    apply decide_eq_true
    refine ⟨Nat.pos_pow_of_pos k (by omega), ?_⟩
    have h1 := nextPow2_ge (2 ^ k)
    have h2 := nextPow2_min (2 ^ k) k (le_refl _)
    omega

/-- State of a ChunkAllocator object together with its environment.
The configuration and counter fields mirror the private members declared in
chunk_allocator.h lines 84 to 96: reserve_bytes_limit, steal_arena_limit,
reserved_bytes (an atomic int64, hence Int), and the per-core arena table
(numCores entries; each arena holds one free list per bucket, front of the
list being the most recently pushed block, so freeLists core bucket is the
LIFO stack of that arena for that size class). The remaining fields model
the environment: sysOk and sysNext stand for the System Memory Provider (a
fresh handle counter), and sysAllocCount, alignedAllocCount, sysFreeCount
and stealAttempts record how often the provider was asked for memory, asked
for aligned memory, handed back a block, and how often a steal scan over
peer arenas was started. -/
structure AllocState where
  reserve_bytes_limit : Nat
  steal_arena_limit : Nat
  numCores : Nat
  freeLists : Nat → Nat → List Nat
  reserved_bytes : Int
  sysOk : Bool
  sysNext : Nat
  sysAllocCount : Nat
  alignedAllocCount : Nat
  sysFreeCount : Nat
  stealAttempts : Nat

/-- Pointwise update of a per-core, per-bucket family of free lists. -/
def setList (f : Nat → Nat → List Nat) (i b : Nat) (l : List Nat) : Nat → Nat → List Nat :=
  fun i2 b2 => if i2 = i then (if b2 = b then l else f i2 b2) else f i2 b2

theorem setList_same (f : Nat → Nat → List Nat) (i b : Nat) (l : List Nat) :
    setList f i b l i b = l := by
  simp [setList]

theorem setList_ne (f : Nat → Nat → List Nat) (i b i2 b2 : Nat) (l : List Nat)
    (h : i2 ≠ i ∨ b2 ≠ b) : setList f i b l i2 b2 = f i2 b2 := by
  rcases h with h | h <;> simp [setList, h]

/-- Modelled from the spec: the scan over peer arenas during a steal, in
the given order; returns the first peer holding a free block of the bucket,
that block, and the rest of that list. -/
def scanPeers (f : Nat → Nat → List Nat) (b : Nat) : List Nat → Option (Nat × Nat × List Nat)
  | [] => none
  | j :: rest =>
    match f j b with
    | [] => scanPeers f b rest
    | blk :: tail => some (j, blk, tail)

/-- Modelled from the spec: the fixed steal scan order, starting
immediately after the local core and wrapping around, covering the n - 1
peer arenas. -/
def peerOrder (core n : Nat) : List Nat :=
  (List.range (n - 1)).map (fun i => (core + 1 + i) % n)

/-- Result of consulting the tracker: try_consume of the external Tracker
interface; a missing tracker never denies. -/
def trackerGrants : Option (Nat → Bool) → Nat → Bool
  | none, _ => true
  | some f, sc => f sc

namespace ChunkAllocator

/-- Modelled from the spec: the system-fallback step of allocate (step 5 of
the allocate contract; chunk_allocator.cpp is absent from the snapshot).
With check_limits set, the tracker is consulted first and a denial fails
with ResourceExceeded before any system allocation; otherwise the System
Memory Provider is asked for sc bytes (aligned when the aligned flag is
set), yielding a fresh handle tagged with the requesting core, or
OutOfMemory on provider failure. The cached-byte count is not touched. -/
def sysFallback (st : AllocState) (sc core : Nat) (tracker : Option (Nat → Bool))
    (check aligned : Bool) : Except AllocError Chunk × AllocState :=
  if check && !(trackerGrants tracker sc) then (.error .resourceExceeded, st)
  else if st.sysOk then
    (.ok ⟨st.sysNext, sc, core⟩,
      { st with
        sysNext := st.sysNext + 1
        sysAllocCount := st.sysAllocCount + 1
        alignedAllocCount := if aligned then st.alignedAllocCount + 1 else st.alignedAllocCount })
  else (.error .outOfMemory, st)

/-- Modelled from the spec: the body of allocate after the size has been
rounded to its size class sc (chunk_allocator.cpp is absent from the
snapshot). Cache hit: pop the local arena free list for the class and
subtract sc from the global cached-byte count. Steal: only if the local
list is empty and the global count exceeds the steal threshold, scan the
peer arenas in the fixed order; a stolen chunk is tagged with its original
owning core. Otherwise fall back to the system. -/
def allocAfterRound (st : AllocState) (sc core : Nat) (tracker : Option (Nat → Bool))
    (check aligned : Bool) : Except AllocError Chunk × AllocState :=
  match st.freeLists core (class_of sc) with
  | blk :: rest =>
      (.ok ⟨blk, sc, core⟩,
        { st with
          freeLists := setList st.freeLists core (class_of sc) rest
          reserved_bytes := st.reserved_bytes - (sc : Int) })
  | [] =>
      if (st.steal_arena_limit : Int) < st.reserved_bytes then
        match scanPeers st.freeLists (class_of sc) (peerOrder core st.numCores) with
        | some (j, blk, tail) =>
            (.ok ⟨blk, sc, j⟩,
              { st with
                freeLists := setList st.freeLists j (class_of sc) tail
                reserved_bytes := st.reserved_bytes - (sc : Int)
                stealAttempts := st.stealAttempts + 1 })
        | none =>
            sysFallback { st with stealAttempts := st.stealAttempts + 1 }
              sc core tracker check aligned
      else sysFallback st sc core tracker check aligned

/-- Modelled from the spec: Status ChunkAllocator::allocate(size_t size,
Chunk* chunk, MemTracker* tracker, bool check_limits), declared at
chunk_allocator.h lines 68 to 69 (the body, chunk_allocator.cpp, is absent
from the snapshot). Round the request to a size class, then try the local
arena, then conditionally steal, then fall back to the system. -/
def allocate (st : AllocState) (size core : Nat) (tracker : Option (Nat → Bool))
    (check : Bool) : Except AllocError Chunk × AllocState :=
  match round_up size with
  | .error e => (.error e, st)
  | .ok sc => allocAfterRound st sc core tracker check false

/-- Modelled from the spec: ChunkAllocator::allocate_align, declared at
chunk_allocator.h lines 71 to 72; identical policy to allocate except that
the system-fallback step requests alignment equal to the size class. -/
def allocate_align (st : AllocState) (size core : Nat) (tracker : Option (Nat → Bool))
    (check : Bool) : Except AllocError Chunk × AllocState :=
  match round_up size with
  | .error e => (.error e, st)
  | .ok sc => allocAfterRound st sc core tracker check true

/-- Modelled from the spec: void ChunkAllocator::free(const Chunk& chunk,
MemTracker* tracker), declared at chunk_allocator.h line 74 (the body,
chunk_allocator.cpp, is absent from the snapshot). If the global
cached-byte count plus the chunk size fits under the reservation limit, the
block is pushed onto the free list of the origin-core arena for its size
class and the count is increased by the chunk size; otherwise the block is
handed to the System Memory Provider and the count is unchanged. The
declaration returns void, so no status can be surfaced; the InvalidArgument
rejection described by the release contract of the spec has no channel and
is therefore not part of this model. -/
def free (st : AllocState) (c : Chunk) : AllocState :=
  if st.reserved_bytes + (c.size : Int) ≤ (st.reserve_bytes_limit : Int) then
    { st with
      freeLists := setList st.freeLists c.core_id (class_of c.size)
        (c.data :: st.freeLists c.core_id (class_of c.size))
      reserved_bytes := st.reserved_bytes + (c.size : Int) }
  else { st with sysFreeCount := st.sysFreeCount + 1 }

/-- Modelled from the spec: the second overload void
ChunkAllocator::free(uint8_t* data, size_t size, MemTracker* tracker),
declared at chunk_allocator.h line 80; it builds a transient chunk whose
origin core defaults to the current core and performs the same release
logic. -/
def free_raw (st : AllocState) (data size core : Nat) : AllocState :=
  free st ⟨data, size, core⟩

/-- Modelled from the spec: the one-time construction performed by
init_instance / the ChunkAllocator constructor (chunk_allocator.h lines 54
and 63): one empty arena per detected core, the reservation limit as
given, and a stealing threshold derived as a configured fraction of the
limit (one tenth in this model; the exact fraction is immaterial to every
claim below). The environment starts with a working provider and fresh
handle counter zero. -/
def init (reserve_limit cores : Nat) : AllocState :=
  { reserve_bytes_limit := reserve_limit
    steal_arena_limit := reserve_limit / 10
    numCores := cores
    freeLists := fun _ _ => []
    reserved_bytes := 0
    sysOk := true
    sysNext := 0
    sysAllocCount := 0
    alignedAllocCount := 0
    sysFreeCount := 0
    stealAttempts := 0 }

/-- The inline body of ChunkAllocator::instance() in the non-test build,
chunk_allocator.h line 60: return _s_instance; . The argument is the
current value of the static pointer _s_instance, with none standing for
the null pointer it holds before init_instance has run; the body returns
it unchanged, with no check and no assertion. -/
def instanceFn (s_instance : Option AllocState) : Option AllocState := s_instance

end ChunkAllocator

theorem scanPeers_congr (f g : Nat → Nat → List Nat) (b : Nat)
    (hfg : ∀ j, f j b = g j b) :
    ∀ order, scanPeers f b order = scanPeers g b order := by
  intro order
  induction order with
  | nil => rfl
  | cons j rest ih =>
    cases hg : g j b with
    | nil => simp only [scanPeers, hfg j, hg]; exact ih
    | cons blk tail => simp only [scanPeers, hfg j, hg]

theorem scanPeers_some (f : Nat → Nat → List Nat) (b : Nat) :
    ∀ order j blk tail, scanPeers f b order = some (j, blk, tail) →
      f j b = blk :: tail := by
  intro order
  induction order with
  | nil => intro j blk tail h; simp [scanPeers] at h
  | cons j2 rest ih =>
    intro j blk tail h
    cases hg : f j2 b with
    | nil =>
      simp only [scanPeers, hg] at h
      exact ih j blk tail h
    | cons blk2 tail2 =>
      simp only [scanPeers, hg, Option.some.injEq, Prod.mk.injEq] at h
      obtain ⟨rfl, rfl, rfl⟩ := h
      exact hg

theorem scanPeers_empty (f : Nat → Nat → List Nat) (b : Nat)
    (hf : ∀ j, f j b = []) : ∀ order, scanPeers f b order = none := by
  intro order
  induction order with
  | nil => rfl
  | cons j rest ih => simp only [scanPeers, hf j]; exact ih

theorem round_up_ok (s sc : Nat) (h : round_up s = .ok sc) :
    sc = nextPow2 s ∧ 0 < s ∧ s ≤ MAX_CHUNK_SIZE := by
  unfold round_up at h
  by_cases h0 : s = 0
  · simp [h0] at h
  · by_cases h1 : MAX_CHUNK_SIZE < s
    · simp [h0, h1] at h
    · simp only [h0, h1, if_false, Except.ok.injEq, ite_false] at h
      exact ⟨h.symm, by omega, by omega⟩

theorem round_up_err (s : Nat) (h : s = 0 ∨ MAX_CHUNK_SIZE < s) :
    round_up s = .error .invalidArgument := by
  unfold round_up
  rcases h with h | h
  · simp [h]
  · have h0 : s ≠ 0 := by
      unfold MAX_CHUNK_SIZE at h; omega
    simp [h0, h]

namespace ChunkAllocator

theorem allocate_eq_ok (st : AllocState) (s core : Nat) (tr : Option (Nat → Bool))
    (ck : Bool) (sc : Nat) (hr : round_up s = .ok sc) :
    allocate st s core tr ck = allocAfterRound st sc core tr ck false := by
  unfold allocate; rw [hr]

theorem allocate_eq_error (st : AllocState) (s core : Nat) (tr : Option (Nat → Bool))
    (ck : Bool) (e : AllocError) (hr : round_up s = .error e) :
    allocate st s core tr ck = (.error e, st) := by
  unfold allocate; rw [hr]

theorem allocate_align_eq_ok (st : AllocState) (s core : Nat) (tr : Option (Nat → Bool))
    (ck : Bool) (sc : Nat) (hr : round_up s = .ok sc) :
    allocate_align st s core tr ck = allocAfterRound st sc core tr ck true := by
  unfold allocate_align; rw [hr]

theorem allocate_align_eq_error (st : AllocState) (s core : Nat) (tr : Option (Nat → Bool))
    (ck : Bool) (e : AllocError) (hr : round_up s = .error e) :
    allocate_align st s core tr ck = (.error e, st) := by
  unfold allocate_align; rw [hr]

theorem allocAfterRound_hit (st : AllocState) (sc core : Nat) (tr : Option (Nat → Bool))
    (ck al : Bool) (blk : Nat) (rest : List Nat)
    (hl : st.freeLists core (class_of sc) = blk :: rest) :
    allocAfterRound st sc core tr ck al =
      (.ok ⟨blk, sc, core⟩,
        { st with
          freeLists := setList st.freeLists core (class_of sc) rest
          reserved_bytes := st.reserved_bytes - (sc : Int) }) := by
  unfold allocAfterRound; rw [hl]

theorem allocAfterRound_steal (st : AllocState) (sc core : Nat) (tr : Option (Nat → Bool))
    (ck al : Bool) (j blk : Nat) (tail : List Nat)
    (hl : st.freeLists core (class_of sc) = [])
    (hcond : (st.steal_arena_limit : Int) < st.reserved_bytes)
    (hscan : scanPeers st.freeLists (class_of sc) (peerOrder core st.numCores) =
      some (j, blk, tail)) :
    allocAfterRound st sc core tr ck al =
      (.ok ⟨blk, sc, j⟩,
        { st with
          freeLists := setList st.freeLists j (class_of sc) tail
          reserved_bytes := st.reserved_bytes - (sc : Int)
          stealAttempts := st.stealAttempts + 1 }) := by
  unfold allocAfterRound
  rw [hl]
  rw [if_pos hcond, hscan]

theorem allocAfterRound_steal_none (st : AllocState) (sc core : Nat)
    (tr : Option (Nat → Bool)) (ck al : Bool)
    (hl : st.freeLists core (class_of sc) = [])
    (hcond : (st.steal_arena_limit : Int) < st.reserved_bytes)
    (hscan : scanPeers st.freeLists (class_of sc) (peerOrder core st.numCores) = none) :
    allocAfterRound st sc core tr ck al =
      sysFallback { st with stealAttempts := st.stealAttempts + 1 } sc core tr ck al := by
  unfold allocAfterRound
  rw [hl]
  rw [if_pos hcond, hscan]

theorem allocAfterRound_nosteal (st : AllocState) (sc core : Nat)
    (tr : Option (Nat → Bool)) (ck al : Bool)
    (hl : st.freeLists core (class_of sc) = [])
    (hcond : ¬ (st.steal_arena_limit : Int) < st.reserved_bytes) :
    allocAfterRound st sc core tr ck al = sysFallback st sc core tr ck al := by
  unfold allocAfterRound
  rw [hl]
  rw [if_neg hcond]

theorem sysFallback_denied (st : AllocState) (sc core : Nat) (tr : Option (Nat → Bool))
    (al : Bool) (hg : trackerGrants tr sc = false) :
    sysFallback st sc core tr true al = (.error .resourceExceeded, st) := by
  unfold sysFallback; simp [hg]

theorem sysFallback_sys (st : AllocState) (sc core : Nat) (tr : Option (Nat → Bool))
    (ck al : Bool) (hck : (ck && !(trackerGrants tr sc)) = false) (hok : st.sysOk = true) :
    sysFallback st sc core tr ck al =
      (.ok ⟨st.sysNext, sc, core⟩,
        { st with
          sysNext := st.sysNext + 1
          sysAllocCount := st.sysAllocCount + 1
          alignedAllocCount :=
            if al then st.alignedAllocCount + 1 else st.alignedAllocCount }) := by
  unfold sysFallback; rw [hck, hok]; simp

theorem sysFallback_oom (st : AllocState) (sc core : Nat) (tr : Option (Nat → Bool))
    (ck al : Bool) (hck : (ck && !(trackerGrants tr sc)) = false) (hok : st.sysOk = false) :
    sysFallback st sc core tr ck al = (.error .outOfMemory, st) := by
  unfold sysFallback; rw [hck, hok]; simp

/-- Everything sysFallback leaves untouched: the free lists, the cached
byte count, the configuration, and the steal and system-release ghosts. -/
theorem sysFallback_frame (st : AllocState) (sc core : Nat) (tr : Option (Nat → Bool))
    (ck al : Bool) :
    (sysFallback st sc core tr ck al).2.freeLists = st.freeLists ∧
    (sysFallback st sc core tr ck al).2.reserved_bytes = st.reserved_bytes ∧
    (sysFallback st sc core tr ck al).2.reserve_bytes_limit = st.reserve_bytes_limit ∧
    (sysFallback st sc core tr ck al).2.steal_arena_limit = st.steal_arena_limit ∧
    (sysFallback st sc core tr ck al).2.numCores = st.numCores ∧
    (sysFallback st sc core tr ck al).2.stealAttempts = st.stealAttempts ∧
    (sysFallback st sc core tr ck al).2.sysFreeCount = st.sysFreeCount ∧
    (sysFallback st sc core tr ck al).2.sysOk = st.sysOk := by
  unfold sysFallback
  split
  · exact ⟨rfl, rfl, rfl, rfl, rfl, rfl, rfl, rfl⟩
  · split
    · exact ⟨rfl, rfl, rfl, rfl, rfl, rfl, rfl, rfl⟩
    · exact ⟨rfl, rfl, rfl, rfl, rfl, rfl, rfl, rfl⟩

theorem sysFallback_ok_chunk (st : AllocState) (sc core : Nat) (tr : Option (Nat → Bool))
    (ck al : Bool) (c : Chunk) (h : (sysFallback st sc core tr ck al).1 = .ok c) :
    c = ⟨st.sysNext, sc, core⟩ := by
  unfold sysFallback at h
  split at h
  · simp at h
  · split at h
    · simp only [Except.ok.injEq] at h
      exact h.symm
    · simp at h

theorem allocAfterRound_ok_size (st : AllocState) (sc core : Nat) (tr : Option (Nat → Bool))
    (ck al : Bool) (c : Chunk)
    (h : (allocAfterRound st sc core tr ck al).1 = .ok c) : c.size = sc := by
  unfold allocAfterRound at h
  split at h
  · simp only [Except.ok.injEq] at h
    rw [← h]
  · split at h
    · split at h
      · simp only [Except.ok.injEq] at h
        rw [← h]
      · have := sysFallback_ok_chunk _ _ _ _ _ _ _ h
        rw [this]
    · have := sysFallback_ok_chunk _ _ _ _ _ _ _ h
      rw [this]

end ChunkAllocator

/-- Return types that occur in the declarations of chunk_allocator.h:
Status (the error-carrying result type of the repository) or void. -/
inductive CppReturn
  | void
  | status
  deriving DecidableEq

/-- Return type of both overloads of ChunkAllocator::free as declared in
chunk_allocator.h lines 74 and 80: void. -/
def freeDeclaredReturn : CppReturn := CppReturn.void

/-- Return type of ChunkAllocator::allocate and allocate_align as declared
in chunk_allocator.h lines 68 to 72: Status. -/
def allocateDeclaredReturn : CppReturn := CppReturn.status

/-- A fresh two-core allocator with reservation limit 1024: the concrete
evaluation point used by the witnesses below. -/
def demoState : AllocState := ChunkAllocator.init 1024 2

/-- demoState holding one cached block (handle 7) in the bucket of size
class 8 (bucket 3) of the core-0 arena, with 8 cached bytes accounted. -/
def demoHit : AllocState :=
  { demoState with
    freeLists := fun i b => if i = 0 ∧ b = 3 then [7] else []
    reserved_bytes := 8 }

/-- A two-core allocator whose reservation limit is zero, so every release
bypasses the cache. -/
def demoZero : AllocState := ChunkAllocator.init 0 2

/-- C1: for every size s greater than zero, a successful allocate(s)
returns a chunk whose recorded size is a power of two and is at least s.
Holds on the cache-hit, steal and system-fallback paths alike, since every
path tags the chunk with the size class round_up produced. -/
theorem allocate_chunk_size_pow2 (st : AllocState) (s core : Nat)
    (tr : Option (Nat → Bool)) (ck : Bool) (c : Chunk)
    (_hs : 0 < s)
    (h : (ChunkAllocator.allocate st s core tr ck).1 = .ok c) :
    (∃ k, c.size = 2 ^ k) ∧ s ≤ c.size := by
  cases hr : round_up s with
  | error e =>
    rw [ChunkAllocator.allocate_eq_error st s core tr ck e hr] at h
    simp at h
  | ok sc =>
    rw [ChunkAllocator.allocate_eq_ok st s core tr ck sc hr] at h
    have hsz := ChunkAllocator.allocAfterRound_ok_size st sc core tr ck false c h
    obtain ⟨hsc, -, -⟩ := round_up_ok s sc hr
    rw [hsz, hsc]
    exact ⟨nextPow2_pow s, nextPow2_ge s⟩

/-- Witness for C1: on a fresh allocator, allocate(5) succeeds through the
system fallback with the fresh handle 0 and size class 8, and 8 is a power
of two at least 5. -/
theorem allocate_chunk_size_pow2_witness :
    0 < 5 ∧
    (ChunkAllocator.allocate demoState 5 0 none false).1 = .ok ⟨0, 8, 0⟩ ∧
    ((∃ k, (Chunk.mk 0 8 0).size = 2 ^ k) ∧ 5 ≤ (Chunk.mk 0 8 0).size) :=
  ⟨by decide, by rfl,
    allocate_chunk_size_pow2 demoState 5 0 none false ⟨0, 8, 0⟩ (by decide) (by rfl)⟩

/-- C2: for 0 < s up to the fixed maximum representable chunk size,
round_up(s) returns the smallest power of two at least s (a power of two,
at least s, below 2s, and minimal among powers of two at least s); for
s = 0 or s above the maximum it fails with InvalidArgument, and hence
allocate(0) fails with InvalidArgument. -/
theorem round_up_contract (s : Nat) :
    (0 < s → s ≤ MAX_CHUNK_SIZE →
      round_up s = .ok (nextPow2 s) ∧
      (∃ k, nextPow2 s = 2 ^ k) ∧
      s ≤ nextPow2 s ∧
      nextPow2 s < 2 * s ∧
      (∀ m k, m = 2 ^ k → s ≤ m → nextPow2 s ≤ m)) ∧
    ((s = 0 ∨ MAX_CHUNK_SIZE < s) → round_up s = .error .invalidArgument) ∧
    (∀ st core tr ck,
      (ChunkAllocator.allocate st 0 core tr ck).1 = .error .invalidArgument) := by
  refine ⟨?_, round_up_err s, ?_⟩
  · intro h0 hmax
    refine ⟨?_, nextPow2_pow s, nextPow2_ge s, nextPow2_lt_two_mul s h0, ?_⟩
    · unfold round_up
      have h1 : ¬ s = 0 := by omega
      have h2 : ¬ MAX_CHUNK_SIZE < s := by omega
      simp [h1, h2]
    · rintro m k rfl hm
      exact nextPow2_min s k hm
  · intro st core tr ck
    rw [ChunkAllocator.allocate_eq_error st 0 core tr ck .invalidArgument
      (round_up_err 0 (Or.inl rfl))]

/-- Witness for C2 at s = 5 and s = 0: round_up 5 is 8 and round_up 0 is
InvalidArgument, as is allocate of size 0. -/
theorem round_up_contract_witness :
    (0 < 5 ∧ 5 ≤ MAX_CHUNK_SIZE) ∧
    round_up 5 = .ok 8 ∧
    round_up 0 = .error .invalidArgument ∧
    (ChunkAllocator.allocate demoState 0 0 none false).1 = .error .invalidArgument :=
  ⟨⟨by decide, by decide⟩,
    ((round_up_contract 5).1 (by decide) (by decide)).1,
    (round_up_contract 0).2.1 (Or.inl rfl),
    (round_up_contract 0).2.2 demoState 0 none false⟩

/-- C3: on release, if the current global cached-byte count plus the chunk
size fits under the reservation limit, the block is pushed onto the free
list of the destination (origin-core) arena for its size class and the
global count grows by the chunk size, with nothing handed to the system;
otherwise the block is handed to the System Memory Provider and the global
count and every free list are unchanged. -/
theorem free_reservation_policy (st : AllocState) (c : Chunk) :
    (st.reserved_bytes + (c.size : Int) ≤ (st.reserve_bytes_limit : Int) →
      (ChunkAllocator.free st c).freeLists c.core_id (class_of c.size) =
        c.data :: st.freeLists c.core_id (class_of c.size) ∧
      (ChunkAllocator.free st c).reserved_bytes = st.reserved_bytes + (c.size : Int) ∧
      (ChunkAllocator.free st c).sysFreeCount = st.sysFreeCount) ∧
    (¬ st.reserved_bytes + (c.size : Int) ≤ (st.reserve_bytes_limit : Int) →
      (ChunkAllocator.free st c).sysFreeCount = st.sysFreeCount + 1 ∧
      (ChunkAllocator.free st c).reserved_bytes = st.reserved_bytes ∧
      ∀ i b, (ChunkAllocator.free st c).freeLists i b = st.freeLists i b) := by
  constructor
  · intro h
    unfold ChunkAllocator.free
    rw [if_pos h]
    exact ⟨setList_same _ _ _ _, rfl, rfl⟩
  · intro h
    unfold ChunkAllocator.free
    rw [if_neg h]
    exact ⟨rfl, rfl, fun i b => rfl⟩

/-- Witness for C3: releasing a chunk of size 8 into a fresh allocator
with limit 1024 caches it and raises the count by 8; releasing it into an
allocator with limit 0 hands it to the system instead. -/
theorem free_reservation_policy_witness :
    (demoState.reserved_bytes + ((Chunk.mk 7 8 0).size : Int) ≤
        (demoState.reserve_bytes_limit : Int) ∧
      (ChunkAllocator.free demoState ⟨7, 8, 0⟩).reserved_bytes =
        demoState.reserved_bytes + ((Chunk.mk 7 8 0).size : Int)) ∧
    (¬ demoZero.reserved_bytes + ((Chunk.mk 7 8 0).size : Int) ≤
        (demoZero.reserve_bytes_limit : Int) ∧
      (ChunkAllocator.free demoZero ⟨7, 8, 0⟩).sysFreeCount =
        demoZero.sysFreeCount + 1) :=
  ⟨⟨by decide, ((free_reservation_policy demoState ⟨7, 8, 0⟩).1 (by decide)).2.1⟩,
    ⟨by decide, ((free_reservation_policy demoZero ⟨7, 8, 0⟩).2 (by decide)).1⟩⟩

/-- C4: during allocate, a steal is never attempted unless the local arena
is empty for the requested class and the global cached-byte count exceeds
the stealing threshold: when either condition fails, the steal counter is
untouched and no peer arena is modified. -/
theorem allocate_steal_gating (st : AllocState) (s core : Nat)
    (tr : Option (Nat → Bool)) (ck : Bool)
    (h : st.freeLists core (class_of (nextPow2 s)) ≠ [] ∨
      st.reserved_bytes ≤ (st.steal_arena_limit : Int)) :
    (ChunkAllocator.allocate st s core tr ck).2.stealAttempts = st.stealAttempts ∧
    ∀ j b, j ≠ core →
      (ChunkAllocator.allocate st s core tr ck).2.freeLists j b = st.freeLists j b := by
  cases hr : round_up s with
  | error e =>
    rw [ChunkAllocator.allocate_eq_error st s core tr ck e hr]
    exact ⟨rfl, fun j b _ => rfl⟩
  | ok sc =>
    obtain ⟨hsc, -, -⟩ := round_up_ok s sc hr
    subst hsc
    rw [ChunkAllocator.allocate_eq_ok st s core tr ck _ hr]
    cases hl : st.freeLists core (class_of (nextPow2 s)) with
    | cons blk rest =>
      rw [ChunkAllocator.allocAfterRound_hit st _ core tr ck false blk rest hl]
      refine ⟨rfl, fun j b hj => ?_⟩
      exact setList_ne st.freeLists core (class_of (nextPow2 s)) j b rest (Or.inl hj)
    | nil =>
      have hcond : ¬ (st.steal_arena_limit : Int) < st.reserved_bytes := by
        rcases h with h | h
        · exact absurd hl h
        · omega
      rw [ChunkAllocator.allocAfterRound_nosteal st _ core tr ck false hl hcond]
      have hf := ChunkAllocator.sysFallback_frame st (nextPow2 s) core tr ck false
      exact ⟨hf.2.2.2.2.2.1, fun j b _ => by rw [hf.1]⟩

/-- Witness for C4: with a cached block available locally, allocate(8)
leaves the steal counter and the peer arena of core 1 untouched. -/
theorem allocate_steal_gating_witness :
    (demoHit.freeLists 0 (class_of (nextPow2 8)) ≠ [] ∨
      demoHit.reserved_bytes ≤ (demoHit.steal_arena_limit : Int)) ∧
    ((ChunkAllocator.allocate demoHit 8 0 none false).2.stealAttempts =
        demoHit.stealAttempts ∧
      ∀ j b, j ≠ 0 →
        (ChunkAllocator.allocate demoHit 8 0 none false).2.freeLists j b =
          demoHit.freeLists j b) :=
  ⟨Or.inl (by decide),
    allocate_steal_gating demoHit 8 0 none false (Or.inl (by decide))⟩

theorem free_cached_eq (st : AllocState) (c : Chunk)
    (h : st.reserved_bytes + (c.size : Int) ≤ (st.reserve_bytes_limit : Int)) :
    ChunkAllocator.free st c =
      { st with
        freeLists := setList st.freeLists c.core_id (class_of c.size)
          (c.data :: st.freeLists c.core_id (class_of c.size))
        reserved_bytes := st.reserved_bytes + (c.size : Int) } := by
  unfold ChunkAllocator.free; rw [if_pos h]

theorem free_bypass_eq (st : AllocState) (c : Chunk)
    (h : ¬ st.reserved_bytes + (c.size : Int) ≤ (st.reserve_bytes_limit : Int)) :
    ChunkAllocator.free st c = { st with sysFreeCount := st.sysFreeCount + 1 } := by
  unfold ChunkAllocator.free; rw [if_neg h]

/-- Popping a block and pushing the same block back leaves every free list
pointwise unchanged. -/
theorem setList_push_pop (f : Nat → Nat → List Nat) (j b blk : Nat) (tail : List Nat)
    (hj : f j b = blk :: tail) :
    ∀ i2 b2,
      setList (setList f j b tail) j b (blk :: setList f j b tail j b) i2 b2 = f i2 b2 := by
  intro i2 b2
  by_cases hi : i2 = j
  · by_cases hb : b2 = b
    · subst hi; subst hb
      rw [setList_same, setList_same, hj]
    · subst hi
      rw [setList_ne _ _ _ _ _ _ (Or.inr hb), setList_ne _ _ _ _ _ _ (Or.inr hb)]
  · rw [setList_ne _ _ _ _ _ _ (Or.inl hi), setList_ne _ _ _ _ _ _ (Or.inl hi)]

namespace ChunkAllocator

/-- After a release has cached a block in the arena of the requesting
core, the immediately following allocate of the same size class pops that
very block again (the per-class free list is last-in-first-out). -/
theorem free_then_local_hit (st1 : AllocState) (c : Chunk) (s sc core : Nat)
    (tr : Option (Nat → Bool)) (ck : Bool)
    (hr : round_up s = .ok sc) (hsz : c.size = sc) (hcore : c.core_id = core)
    (hcache : st1.reserved_bytes + (c.size : Int) ≤ (st1.reserve_bytes_limit : Int)) :
    (allocate (free st1 c) s core tr ck).1 = Except.ok ⟨c.data, sc, core⟩ := by
  subst hsz; subst hcore
  rw [free_cached_eq st1 c hcache]
  rw [allocate_eq_ok _ s c.core_id tr ck c.size hr]
  rw [allocAfterRound_hit _ c.size c.core_id tr ck false c.data
    (st1.freeLists c.core_id (class_of c.size)) (setList_same _ _ _ _)]

/-- A state that agrees with st pointwise on the free lists, on the steal
threshold, the core count and the cached-byte count repeats the very same
successful steal that st would perform. -/
theorem allocate_pointwise_steal (st2 st : AllocState) (s sc core j blk : Nat)
    (tail : List Nat) (tr : Option (Nat → Bool)) (ck : Bool)
    (hr : round_up s = .ok sc)
    (hpt : ∀ i2 b2, st2.freeLists i2 b2 = st.freeLists i2 b2)
    (hsteal : st2.steal_arena_limit = st.steal_arena_limit)
    (hn : st2.numCores = st.numCores)
    (hres : st2.reserved_bytes = st.reserved_bytes)
    (hl : st.freeLists core (class_of sc) = [])
    (hcond : (st.steal_arena_limit : Int) < st.reserved_bytes)
    (hscan : scanPeers st.freeLists (class_of sc) (peerOrder core st.numCores) =
      some (j, blk, tail)) :
    (allocate st2 s core tr ck).1 = Except.ok ⟨blk, sc, j⟩ := by
  rw [allocate_eq_ok st2 s core tr ck sc hr]
  have hl2 : st2.freeLists core (class_of sc) = [] := by rw [hpt core, hl]
  have hcond2 : (st2.steal_arena_limit : Int) < st2.reserved_bytes := by
    rw [hsteal, hres]; exact hcond
  have hscan2 : scanPeers st2.freeLists (class_of sc) (peerOrder core st2.numCores) =
      some (j, blk, tail) := by
    rw [hn, scanPeers_congr st2.freeLists st.freeLists (class_of sc)
      (fun j2 => hpt j2 (class_of sc)) (peerOrder core st.numCores)]
    exact hscan
  rw [allocAfterRound_steal st2 sc core tr ck false j blk tail hl2 hcond2 hscan2]

end ChunkAllocator

/-- C5 counterexample: with a cached block of the requested class in the
local arena, allocate with check_limits set and a tracker that denies
every request still succeeds — the cache hit never consults the tracker —
so the claim that every such call fails with ResourceExceeded is false. -/
theorem allocate_denied_cache_hit_cex :
    (ChunkAllocator.allocate demoHit 8 0 (some (fun _ => false)) true).1 =
      Except.ok ⟨7, 8, 0⟩ ∧
    (ChunkAllocator.allocate demoHit 8 0 (some (fun _ => false)) true).1 ≠
      Except.error AllocError.resourceExceeded := by
  have h1 : (ChunkAllocator.allocate demoHit 8 0 (some (fun _ => false)) true).1 =
      Except.ok ⟨7, 8, 0⟩ := rfl
  refine ⟨h1, ?_⟩
  rw [h1]
  simp

/-- C5 amended: when no arena holds a cached block of the requested class,
so the call reaches the system-fallback step, allocate with check_limits
set and a tracker that denies the quota fails with ResourceExceeded and no
request is made to the System Memory Provider (neither the allocation
counter nor the fresh-handle counter of the provider moves). -/
theorem allocate_denied_fallback (st : AllocState) (s core : Nat) (f : Nat → Bool)
    (h0 : 0 < s) (hmax : s ≤ MAX_CHUNK_SIZE)
    (hempty : ∀ j, st.freeLists j (class_of (nextPow2 s)) = [])
    (hdeny : f (nextPow2 s) = false) :
    (ChunkAllocator.allocate st s core (some f) true).1 =
      .error .resourceExceeded ∧
    (ChunkAllocator.allocate st s core (some f) true).2.sysAllocCount =
      st.sysAllocCount ∧
    (ChunkAllocator.allocate st s core (some f) true).2.sysNext = st.sysNext := by
  have hr : round_up s = .ok (nextPow2 s) := by
    unfold round_up
    have h1 : ¬ s = 0 := by omega
    have h2 : ¬ MAX_CHUNK_SIZE < s := by omega
    simp [h1, h2]
  rw [ChunkAllocator.allocate_eq_ok st s core (some f) true _ hr]
  have hg : trackerGrants (some f) (nextPow2 s) = false := hdeny
  by_cases hcond : (st.steal_arena_limit : Int) < st.reserved_bytes
  · have hscan := scanPeers_empty st.freeLists (class_of (nextPow2 s)) hempty
      (peerOrder core st.numCores)
    rw [ChunkAllocator.allocAfterRound_steal_none st _ core (some f) true false
      (hempty core) hcond hscan]
    rw [ChunkAllocator.sysFallback_denied _ _ core (some f) false hg]
    exact ⟨rfl, rfl, rfl⟩
  · rw [ChunkAllocator.allocAfterRound_nosteal st _ core (some f) true false
      (hempty core) hcond]
    rw [ChunkAllocator.sysFallback_denied st _ core (some f) false hg]
    exact ⟨rfl, rfl, rfl⟩

/-- Witness for the amended C5 on a fresh allocator with all arenas empty
and an always-denying tracker. -/
theorem allocate_denied_fallback_witness :
    (0 < 8 ∧ 8 ≤ MAX_CHUNK_SIZE ∧
      (∀ j, demoState.freeLists j (class_of (nextPow2 8)) = []) ∧
      (fun _ : Nat => false) (nextPow2 8) = false) ∧
    ((ChunkAllocator.allocate demoState 8 0 (some (fun _ => false)) true).1 =
        .error .resourceExceeded ∧
      (ChunkAllocator.allocate demoState 8 0 (some (fun _ => false)) true).2.sysAllocCount =
        demoState.sysAllocCount ∧
      (ChunkAllocator.allocate demoState 8 0 (some (fun _ => false)) true).2.sysNext =
        demoState.sysNext) :=
  ⟨⟨by decide, by decide, fun _ => rfl, rfl⟩,
    allocate_denied_fallback demoState 8 0 (fun _ => false) (by decide) (by decide)
      (fun _ => rfl) rfl⟩

/-- C6 counterexample: both free overloads are declared returning void in
chunk_allocator.h (lines 74 and 80), so no call to free can return an
error result; concretely, releasing a chunk of size 3 — not a power of
two — into a fresh allocator is processed by the ordinary caching logic
(the cached-byte count rises by 3) and no error is surfaced, refuting the
claim that such a release fails with InvalidArgument. -/
theorem free_void_cex :
    freeDeclaredReturn = CppReturn.void ∧
    isPow2 (Chunk.mk 9 3 0).size = false ∧
    (ChunkAllocator.free demoState ⟨9, 3, 0⟩).reserved_bytes =
      demoState.reserved_bytes + ((Chunk.mk 9 3 0).size : Int) :=
  ⟨rfl, by decide, rfl⟩

/-- C6 amended: free is declared void, so it returns no error result; a
chunk whose recorded size is not a power of two is not rejected — the
ordinary release logic (cache push under the limit, system hand-off above
it) runs unchanged on it. -/
theorem free_no_error_result (st : AllocState) (c : Chunk)
    (_hbad : isPow2 c.size = false) :
    freeDeclaredReturn = CppReturn.void ∧
    (st.reserved_bytes + (c.size : Int) ≤ (st.reserve_bytes_limit : Int) →
      (ChunkAllocator.free st c).freeLists c.core_id (class_of c.size) =
        c.data :: st.freeLists c.core_id (class_of c.size) ∧
      (ChunkAllocator.free st c).reserved_bytes =
        st.reserved_bytes + (c.size : Int)) ∧
    (¬ st.reserved_bytes + (c.size : Int) ≤ (st.reserve_bytes_limit : Int) →
      (ChunkAllocator.free st c).sysFreeCount = st.sysFreeCount + 1) := by
  refine ⟨rfl, ?_, ?_⟩
  · intro h
    unfold ChunkAllocator.free
    rw [if_pos h]
    exact ⟨setList_same _ _ _ _, rfl⟩
  · intro h
    unfold ChunkAllocator.free
    rw [if_neg h]

/-- Witness for the amended C6 on a size-3 chunk released into a fresh
allocator. -/
theorem free_no_error_result_witness :
    isPow2 (Chunk.mk 11 3 1).size = false ∧
    (freeDeclaredReturn = CppReturn.void ∧
      (demoState.reserved_bytes + ((Chunk.mk 11 3 1).size : Int) ≤
          (demoState.reserve_bytes_limit : Int) →
        (ChunkAllocator.free demoState ⟨11, 3, 1⟩).freeLists (Chunk.mk 11 3 1).core_id
            (class_of (Chunk.mk 11 3 1).size) =
          (Chunk.mk 11 3 1).data ::
            demoState.freeLists (Chunk.mk 11 3 1).core_id
              (class_of (Chunk.mk 11 3 1).size) ∧
        (ChunkAllocator.free demoState ⟨11, 3, 1⟩).reserved_bytes =
          demoState.reserved_bytes + ((Chunk.mk 11 3 1).size : Int)) ∧
      (¬ demoState.reserved_bytes + ((Chunk.mk 11 3 1).size : Int) ≤
          (demoState.reserve_bytes_limit : Int) →
        (ChunkAllocator.free demoState ⟨11, 3, 1⟩).sysFreeCount =
          demoState.sysFreeCount + 1)) :=
  ⟨by decide, free_no_error_result demoState ⟨11, 3, 1⟩ (by decide)⟩

/-- C7 counterexample: in the non-test build, instance() is defined inline
in chunk_allocator.h line 60 as return _s_instance; — called before
init_instance, when _s_instance is still the null pointer (modelled as
none), it completes normally and hands back that null pointer. It neither
fails nor triggers an assertion, refuting the claim. -/
theorem instance_uninit_cex : ChunkAllocator.instanceFn none = none := rfl

/-- C7 amended: instance() performs no initialization check — it returns
the current value of _s_instance unchanged. Before init_instance that
value is the null pointer, so a caller gets null rather than a usable
allocator handle: the misuse is not detected by a failure or assertion,
but no usable handle to an uninitialized allocator is handed out either,
because the only value available before init is null. -/
theorem instance_unchecked :
    (∀ s : Option AllocState, ChunkAllocator.instanceFn s = s) ∧
    ChunkAllocator.instanceFn none = none :=
  ⟨fun _ => rfl, rfl⟩

/-- C9: on a single thread, releasing the chunk just obtained from
allocate(s) and immediately calling allocate(s) again on the same core
returns the same chunk — in particular the same underlying memory block —
provided the release cached the block (the reservation check passed, so no
eviction to the system happened in between). The cache hit, steal and
system-fallback origins of the first chunk are all covered. -/
theorem lifo_reuse (st : AllocState) (s core : Nat) (tr : Option (Nat → Bool))
    (ck : Bool) (c : Chunk)
    (hok : (ChunkAllocator.allocate st s core tr ck).1 = .ok c)
    (hcache : (ChunkAllocator.allocate st s core tr ck).2.reserved_bytes + (c.size : Int) ≤
      ((ChunkAllocator.allocate st s core tr ck).2.reserve_bytes_limit : Int)) :
    (ChunkAllocator.allocate
        (ChunkAllocator.free (ChunkAllocator.allocate st s core tr ck).2 c)
        s core tr ck).1 = .ok c := by
  cases hr : round_up s with
  | error e =>
    rw [ChunkAllocator.allocate_eq_error st s core tr ck e hr] at hok
    simp at hok
  | ok sc =>
    rw [ChunkAllocator.allocate_eq_ok st s core tr ck sc hr] at hok hcache ⊢
    cases hl : st.freeLists core (class_of sc) with
    | cons blk rest =>
      have he := ChunkAllocator.allocAfterRound_hit st sc core tr ck false blk rest hl
      rw [he] at hok hcache ⊢
      have hc : Except.ok (Chunk.mk blk sc core) = Except.ok c := hok
      injection hc with hc2
      subst hc2
      exact ChunkAllocator.free_then_local_hit _ _ s sc core tr ck hr rfl rfl hcache
    | nil =>
      by_cases hcond : (st.steal_arena_limit : Int) < st.reserved_bytes
      · cases hscan : scanPeers st.freeLists (class_of sc) (peerOrder core st.numCores) with
        | some trip =>
          obtain ⟨j, blk, tail⟩ := trip
          have he := ChunkAllocator.allocAfterRound_steal st sc core tr ck false j blk tail
            hl hcond hscan
          rw [he] at hok hcache ⊢
          have hc : Except.ok (Chunk.mk blk sc j) = Except.ok c := hok
          injection hc with hc2
          subst hc2
          have hjb : st.freeLists j (class_of sc) = blk :: tail :=
            scanPeers_some st.freeLists (class_of sc) (peerOrder core st.numCores)
              j blk tail hscan
          rw [free_cached_eq _ _ hcache]
          refine ChunkAllocator.allocate_pointwise_steal _ st s sc core j blk tail tr ck hr
            ?_ ?_ ?_ ?_ hl hcond hscan
          · exact fun i2 b2 => setList_push_pop st.freeLists j (class_of sc) blk tail hjb i2 b2
          · rfl
          · rfl
          · show st.reserved_bytes - (sc : Int) + (sc : Int) = st.reserved_bytes
            omega
        | none =>
          have he := ChunkAllocator.allocAfterRound_steal_none st sc core tr ck false
            hl hcond hscan
          rw [he] at hok hcache ⊢
          have hc := ChunkAllocator.sysFallback_ok_chunk _ sc core tr ck false c hok
          subst hc
          exact ChunkAllocator.free_then_local_hit _ _ s sc core tr ck hr rfl rfl hcache
      · have he := ChunkAllocator.allocAfterRound_nosteal st sc core tr ck false hl hcond
        rw [he] at hok hcache ⊢
        have hc := ChunkAllocator.sysFallback_ok_chunk _ sc core tr ck false c hok
        subst hc
        exact ChunkAllocator.free_then_local_hit _ _ s sc core tr ck hr rfl rfl hcache

/-- Witness for C9: allocate(5) on a fresh allocator yields the fresh
block 0; releasing it is cached (0 + 8 fits under 1024), and the next
allocate(5) returns the very same chunk. -/
theorem lifo_reuse_witness :
    (ChunkAllocator.allocate demoState 5 0 none false).1 = .ok ⟨0, 8, 0⟩ ∧
    ((ChunkAllocator.allocate demoState 5 0 none false).2.reserved_bytes +
        ((Chunk.mk 0 8 0).size : Int) ≤
      ((ChunkAllocator.allocate demoState 5 0 none false).2.reserve_bytes_limit : Int)) ∧
    (ChunkAllocator.allocate
        (ChunkAllocator.free (ChunkAllocator.allocate demoState 5 0 none false).2 ⟨0, 8, 0⟩)
        5 0 none false).1 = .ok ⟨0, 8, 0⟩ :=
  ⟨by rfl, by decide,
    lifo_reuse demoState 5 0 none false ⟨0, 8, 0⟩ (by rfl) (by decide)⟩

namespace ChunkAllocator

theorem allocAfterRound_config (st : AllocState) (sc core : Nat)
    (tr : Option (Nat → Bool)) (ck al : Bool) :
    (allocAfterRound st sc core tr ck al).2.reserve_bytes_limit = st.reserve_bytes_limit ∧
    (allocAfterRound st sc core tr ck al).2.steal_arena_limit = st.steal_arena_limit ∧
    (allocAfterRound st sc core tr ck al).2.numCores = st.numCores := by
  cases hl : st.freeLists core (class_of sc) with
  | cons blk rest =>
    rw [allocAfterRound_hit st sc core tr ck al blk rest hl]
    exact ⟨rfl, rfl, rfl⟩
  | nil =>
    by_cases hcond : (st.steal_arena_limit : Int) < st.reserved_bytes
    · cases hscan : scanPeers st.freeLists (class_of sc) (peerOrder core st.numCores) with
      | some trip =>
        obtain ⟨j, blk, tail⟩ := trip
        rw [allocAfterRound_steal st sc core tr ck al j blk tail hl hcond hscan]
        exact ⟨rfl, rfl, rfl⟩
      | none =>
        rw [allocAfterRound_steal_none st sc core tr ck al hl hcond hscan]
        have hf := sysFallback_frame { st with stealAttempts := st.stealAttempts + 1 }
          sc core tr ck al
        exact ⟨hf.2.2.1, hf.2.2.2.1, hf.2.2.2.2.1⟩
    · rw [allocAfterRound_nosteal st sc core tr ck al hl hcond]
      have hf := sysFallback_frame st sc core tr ck al
      exact ⟨hf.2.2.1, hf.2.2.2.1, hf.2.2.2.2.1⟩

theorem free_config (st : AllocState) (c : Chunk) :
    (free st c).reserve_bytes_limit = st.reserve_bytes_limit ∧
    (free st c).steal_arena_limit = st.steal_arena_limit ∧
    (free st c).numCores = st.numCores := by
  by_cases h : st.reserved_bytes + (c.size : Int) ≤ (st.reserve_bytes_limit : Int)
  · rw [free_cached_eq st c h]; exact ⟨rfl, rfl, rfl⟩
  · rw [free_bypass_eq st c h]; exact ⟨rfl, rfl, rfl⟩

end ChunkAllocator

/-- C10: after construction, allocate, allocate_align and both free
overloads leave the configuration untouched: the reservation limit, the
stealing threshold and the size of the per-core arena table keep their
construction-time values on every path (cache hit, steal, fallback, cached
release, bypassed release, and the error paths). -/
theorem config_frame (st : AllocState) (s core d sz : Nat) (tr : Option (Nat → Bool))
    (ck : Bool) (c : Chunk) :
    ((ChunkAllocator.allocate st s core tr ck).2.reserve_bytes_limit =
        st.reserve_bytes_limit ∧
      (ChunkAllocator.allocate st s core tr ck).2.steal_arena_limit =
        st.steal_arena_limit ∧
      (ChunkAllocator.allocate st s core tr ck).2.numCores = st.numCores) ∧
    ((ChunkAllocator.allocate_align st s core tr ck).2.reserve_bytes_limit =
        st.reserve_bytes_limit ∧
      (ChunkAllocator.allocate_align st s core tr ck).2.steal_arena_limit =
        st.steal_arena_limit ∧
      (ChunkAllocator.allocate_align st s core tr ck).2.numCores = st.numCores) ∧
    ((ChunkAllocator.free st c).reserve_bytes_limit = st.reserve_bytes_limit ∧
      (ChunkAllocator.free st c).steal_arena_limit = st.steal_arena_limit ∧
      (ChunkAllocator.free st c).numCores = st.numCores) ∧
    ((ChunkAllocator.free_raw st d sz core).reserve_bytes_limit = st.reserve_bytes_limit ∧
      (ChunkAllocator.free_raw st d sz core).steal_arena_limit = st.steal_arena_limit ∧
      (ChunkAllocator.free_raw st d sz core).numCores = st.numCores) := by
  refine ⟨?_, ?_, ChunkAllocator.free_config st c, ChunkAllocator.free_config st _⟩
  · cases hr : round_up s with
    | error e =>
      rw [ChunkAllocator.allocate_eq_error st s core tr ck e hr]
      exact ⟨rfl, rfl, rfl⟩
    | ok sc =>
      rw [ChunkAllocator.allocate_eq_ok st s core tr ck sc hr]
      exact ChunkAllocator.allocAfterRound_config st sc core tr ck false
  · cases hr : round_up s with
    | error e =>
      rw [ChunkAllocator.allocate_align_eq_error st s core tr ck e hr]
      exact ⟨rfl, rfl, rfl⟩
    | ok sc =>
      rw [ChunkAllocator.allocate_align_eq_ok st s core tr ck sc hr]
      exact ChunkAllocator.allocAfterRound_config st sc core tr ck true

/-- Single-threaded steps of the allocator: one allocate, allocate_align,
free or free_raw call with arbitrary arguments. Used only to document the
sequential projection of the bounded-overshoot invariant; the claimed
one-chunk overshoot arises from concurrent check-then-act races on the
atomic counter, which this sequential relation cannot exhibit. -/
inductive AllocStep : AllocState → AllocState → Prop
  | alloc (st : AllocState) (s core : Nat) (tr : Option (Nat → Bool)) (ck : Bool) :
      AllocStep st (ChunkAllocator.allocate st s core tr ck).2
  | allocAlign (st : AllocState) (s core : Nat) (tr : Option (Nat → Bool)) (ck : Bool) :
      AllocStep st (ChunkAllocator.allocate_align st s core tr ck).2
  | freeStep (st : AllocState) (c : Chunk) : AllocStep st (ChunkAllocator.free st c)
  | freeRawStep (st : AllocState) (d sz core : Nat) :
      AllocStep st (ChunkAllocator.free_raw st d sz core)

/-- States reachable from a freshly initialized allocator by
single-threaded calls. -/
inductive Reachable (limit cores : Nat) : AllocState → Prop
  | init : Reachable limit cores (ChunkAllocator.init limit cores)
  | step {st st2 : AllocState} : Reachable limit cores st → AllocStep st st2 →
      Reachable limit cores st2

theorem allocAfterRound_reserved_le (st : AllocState) (sc core : Nat)
    (tr : Option (Nat → Bool)) (ck al : Bool) :
    (ChunkAllocator.allocAfterRound st sc core tr ck al).2.reserved_bytes ≤
      st.reserved_bytes := by
  cases hl : st.freeLists core (class_of sc) with
  | cons blk rest =>
    rw [ChunkAllocator.allocAfterRound_hit st sc core tr ck al blk rest hl]
    show st.reserved_bytes - (sc : Int) ≤ st.reserved_bytes
    omega
  | nil =>
    by_cases hcond : (st.steal_arena_limit : Int) < st.reserved_bytes
    · cases hscan : scanPeers st.freeLists (class_of sc) (peerOrder core st.numCores) with
      | some trip =>
        obtain ⟨j, blk, tail⟩ := trip
        rw [ChunkAllocator.allocAfterRound_steal st sc core tr ck al j blk tail hl hcond hscan]
        show st.reserved_bytes - (sc : Int) ≤ st.reserved_bytes
        omega
      | none =>
        rw [ChunkAllocator.allocAfterRound_steal_none st sc core tr ck al hl hcond hscan]
        have hf := ChunkAllocator.sysFallback_frame
          { st with stealAttempts := st.stealAttempts + 1 } sc core tr ck al
        rw [hf.2.1]
    · rw [ChunkAllocator.allocAfterRound_nosteal st sc core tr ck al hl hcond]
      have hf := ChunkAllocator.sysFallback_frame st sc core tr ck al
      rw [hf.2.1]

theorem allocate_reserved_le (st : AllocState) (s core : Nat) (tr : Option (Nat → Bool))
    (ck : Bool) :
    (ChunkAllocator.allocate st s core tr ck).2.reserved_bytes ≤ st.reserved_bytes := by
  cases hr : round_up s with
  | error e => rw [ChunkAllocator.allocate_eq_error st s core tr ck e hr]
  | ok sc =>
    rw [ChunkAllocator.allocate_eq_ok st s core tr ck sc hr]
    exact allocAfterRound_reserved_le st sc core tr ck false

theorem allocate_align_reserved_le (st : AllocState) (s core : Nat)
    (tr : Option (Nat → Bool)) (ck : Bool) :
    (ChunkAllocator.allocate_align st s core tr ck).2.reserved_bytes ≤
      st.reserved_bytes := by
  cases hr : round_up s with
  | error e => rw [ChunkAllocator.allocate_align_eq_error st s core tr ck e hr]
  | ok sc =>
    rw [ChunkAllocator.allocate_align_eq_ok st s core tr ck sc hr]
    exact allocAfterRound_reserved_le st sc core tr ck true

theorem free_reserved_invariant (st : AllocState) (c : Chunk)
    (h : st.reserved_bytes ≤ (st.reserve_bytes_limit : Int)) :
    (ChunkAllocator.free st c).reserved_bytes ≤
      ((ChunkAllocator.free st c).reserve_bytes_limit : Int) := by
  by_cases hc : st.reserved_bytes + (c.size : Int) ≤ (st.reserve_bytes_limit : Int)
  · rw [free_cached_eq st c hc]
    exact hc
  · rw [free_bypass_eq st c hc]
    exact h

/-- Sequential projection of the bounded-overshoot invariant: without
interleaving, the cached-byte count of every reachable state never exceeds
the reservation limit at all (the overshoot of the concurrent claim is a
pure race artifact). This is documentation around claim C8, not its
settlement: the concurrent claim itself is outside this embedding. -/
theorem sequential_reserved_le_limit (limit cores : Nat) (st : AllocState)
    (h : Reachable limit cores st) :
    st.reserved_bytes ≤ (st.reserve_bytes_limit : Int) := by
  induction h with
  | init =>
    show (0 : Int) ≤ (limit : Int)
    omega
  | step hreach hstep ih =>
    rename_i st st2
    cases hstep with
    | alloc s core tr ck =>
      have h1 := allocate_reserved_le st s core tr ck
      have h2 : (ChunkAllocator.allocate st s core tr ck).2.reserve_bytes_limit =
          st.reserve_bytes_limit := by
        cases hr : round_up s with
        | error e => rw [ChunkAllocator.allocate_eq_error st s core tr ck e hr]
        | ok sc =>
          rw [ChunkAllocator.allocate_eq_ok st s core tr ck sc hr]
          exact (ChunkAllocator.allocAfterRound_config st sc core tr ck false).1
      rw [h2]
      omega
    | allocAlign s core tr ck =>
      have h1 := allocate_align_reserved_le st s core tr ck
      have h2 : (ChunkAllocator.allocate_align st s core tr ck).2.reserve_bytes_limit =
          st.reserve_bytes_limit := by
        cases hr : round_up s with
        | error e => rw [ChunkAllocator.allocate_align_eq_error st s core tr ck e hr]
        | ok sc =>
          rw [ChunkAllocator.allocate_align_eq_ok st s core tr ck sc hr]
          exact (ChunkAllocator.allocAfterRound_config st sc core tr ck true).1
      rw [h2]
      omega
    | freeStep c => exact free_reserved_invariant st c ih
    | freeRawStep d sz core => exact free_reserved_invariant st ⟨d, sz, core⟩ ih

end DorisChunkAlloc
